import Mathlib

/-!
Shallow embedding of the hikari-clusters IPC fabric (payload codec,
callback engine, presence registry, command dispatcher, hub server
receive loop, and the brain placement controller), together with
theorems checking the natural-language specification against it.

Python dicts are modelled as insertion-ordered association lists,
Python sets of integers as finite sets, and JSON values as the
inductive type `J`.
-/

namespace HC

/-! ### Association-list dictionaries (Python `dict` semantics) -/

/-- Insertion-ordered dictionary, first binding of a key wins on lookup. -/
abbrev Dict (K V : Type) := List (K × V)

/-- Lookup of the first binding for a key (Python `d.get(k)` / `d[k]`). -/
def Dict.get? {K V : Type} [DecidableEq K] (d : Dict K V) (k : K) : Option V :=
  match d with
  | [] => none
  | (k', v) :: rest => if k' = k then some v else Dict.get? rest k

/-- Update in place if the key is present, else append (Python `d[k] = v`). -/
def Dict.set {K V : Type} [DecidableEq K] (d : Dict K V) (k : K) (v : V) :
    Dict K V :=
  match d with
  | [] => [(k, v)]
  | (k', v') :: rest =>
      if k' = k then (k', v) :: rest else (k', v') :: Dict.set rest k v

/-- Remove every binding of a key (Python `del d[k]` on duplicate-free dicts). -/
def Dict.eraseKey {K V : Type} [DecidableEq K] (d : Dict K V) (k : K) :
    Dict K V :=
  match d with
  | [] => []
  | (k', v) :: rest =>
      if k' = k then Dict.eraseKey rest k
      else (k', v) :: Dict.eraseKey rest k

/-- The keys of a dictionary, in order. -/
def Dict.keys {K V : Type} (d : Dict K V) : List K := d.map Prod.fst

/-- The values of a dictionary, in order. -/
def Dict.values {K V : Type} (d : Dict K V) : List V := d.map Prod.snd

/-! ### JSON values (`payload.DATA` and wire frames) -/

/-- A JSON value, the shape of every wire message and of the untyped
`data` blocks carried inside payloads. -/
inductive J where
  | null : J
  | bool (b : Bool) : J
  | int (n : Int) : J
  | str (s : String) : J
  | arr (xs : List J) : J
  | obj (kvs : List (String × J)) : J

/-- Lookup of a key inside a JSON object. -/
def J.lookup (j : J) (k : String) : Option J :=
  match j with
  | .obj kvs => kvs.lookup k
  | _ => none

/-- Read a JSON value as an integer. -/
def J.asInt : J → Option Int
  | .int n => some n
  | _ => none

/-- Read a JSON value as a string. -/
def J.asStr : J → Option String
  | .str s => some s
  | _ => none

/-- Read each element of a list of JSON values as an integer. -/
def readIntList : List J → Option (List Int)
  | [] => some []
  | x :: xs => do
      let n ← x.asInt
      let rest ← readIntList xs
      pure (n :: rest)

/-- Read a JSON value as a list of integers. -/
def J.asIntList : J → Option (List Int)
  | .arr xs => readIntList xs
  | _ => none

/-! ### Payload codec (`payload.py`) -/

/-- The five payload data variants of `payload.py` (opcodes 0..4). -/
inductive PayloadData where
  | command (name : String) (callback : Int) (data : J)
  | event (name : String) (data : J)
  | responseOk (callback : Int) (data : J)
  | responseTraceback (callback : Int) (traceback : String)
  | responseNotFound (callback : Int)

/-- The class-level `opcode` of each payload data variant. -/
def PayloadData.opcodeOf : PayloadData → Int
  | .command .. => 0
  | .event .. => 1
  | .responseOk .. => 2
  | .responseTraceback .. => 3
  | .responseNotFound .. => 4

/-- Is this one of the three response variants? -/
def PayloadData.isResponse : PayloadData → Bool
  | .responseOk .. => true
  | .responseTraceback .. => true
  | .responseNotFound .. => true
  | _ => false

/-- The `callback` field shared by commands and responses. -/
def PayloadData.callback? : PayloadData → Option Int
  | .command _ c _ => some c
  | .responseOk c _ => some c
  | .responseTraceback c _ => some c
  | .responseNotFound c => some c
  | .event .. => none

/-- The payload envelope of `payload.Payload`. -/
structure Payload where
  opcode : Int
  author : Int
  recipients : List Int
  data : PayloadData

/-- The dictionary `dataclasses.asdict` produces for each data variant. -/
def PayloadData.serializeData : PayloadData → J
  | .command n c d => .obj [("name", .str n), ("callback", .int c), ("data", d)]
  | .event n d => .obj [("name", .str n), ("data", d)]
  | .responseOk c d => .obj [("callback", .int c), ("data", d)]
  | .responseTraceback c t =>
      .obj [("callback", .int c), ("traceback", .str t)]
  | .responseNotFound c => .obj [("callback", .int c)]

/-- The envelope dictionary produced by `Payload.serialize` (`asdict`). -/
def Payload.serialize (p : Payload) : J :=
  .obj [("opcode", .int p.opcode), ("author", .int p.author),
        ("recipients", .arr (p.recipients.map J.int)),
        ("data", p.data.serializeData)]

/-- Reconstruction of a data variant from its dictionary, given the opcode.
An opcode outside 0..4 is the `KeyError` branch of `OPCODES[...]`: `none`. -/
def decodePayloadData (op : Int) (d : J) : Option PayloadData :=
  if op = 0 then do
    let n ← (d.lookup "name").bind J.asStr
    let c ← (d.lookup "callback").bind J.asInt
    let dd ← d.lookup "data"
    pure (.command n c dd)
  else if op = 1 then do
    let n ← (d.lookup "name").bind J.asStr
    let dd ← d.lookup "data"
    pure (.event n dd)
  else if op = 2 then do
    let c ← (d.lookup "callback").bind J.asInt
    let dd ← d.lookup "data"
    pure (.responseOk c dd)
  else if op = 3 then do
    let c ← (d.lookup "callback").bind J.asInt
    let t ← (d.lookup "traceback").bind J.asStr
    pure (.responseTraceback c t)
  else if op = 4 then do
    let c ← (d.lookup "callback").bind J.asInt
    pure (.responseNotFound c)
  else none

/-- The decoder `payload.deserialize_payload`: pick the data class by
opcode, rebuild the data variant, then rebuild the envelope.  A failure
(`none`) is the exception Python would raise. -/
def deserialize_payload (j : J) : Option Payload := do
  let op ← (j.lookup "opcode").bind J.asInt
  let d ← j.lookup "data"
  let pd ← decodePayloadData op d
  let au ← (j.lookup "author").bind J.asInt
  let rec_ ← (j.lookup "recipients").bind J.asIntList
  pure ⟨op, au, rec_, pd⟩

/-! ### Info classes (`info_classes.py`) -/

/-- The dataclass `ServerInfo`. -/
structure ServerInfo where
  uid : Int
  cluster_uids : List Int

/-- The dataclass `ClusterInfo`.  Shard ids are the nonnegative integers
`0 .. shard_count-1`, so they are modelled as naturals. -/
structure ClusterInfo where
  uid : Int
  server_uid : Int
  shard_ids : List Nat
  ready : Bool

/-- The property `ClusterInfo.smallest_shard`, `min(self.shard_ids)`.
Python raises on an empty list; the model returns 0 there, and every
state considered carries nonempty shard lists. -/
def ClusterInfo.smallest_shard (c : ClusterInfo) : Nat :=
  c.shard_ids.min?.getD 0

/-- The static method `get_cluster_id(shard_id, shards_per_cluster)`. -/
def ClusterInfo.get_cluster_id (shard_id shards_per_cluster : Nat) : Nat :=
  shard_id / shards_per_cluster

/-- The property `ClusterInfo.cluster_id`:
`get_cluster_id(self.smallest_shard, len(self.shard_ids))`. -/
def ClusterInfo.cluster_id (c : ClusterInfo) : Nat :=
  ClusterInfo.get_cluster_id c.smallest_shard c.shard_ids.length

/-! ### Callback engine (`callbacks.py`) -/

/-- A value of the result map of `send_command`: a full response payload
stored by `handle_response`, or the `NoResponse` marker. -/
inductive RespValue where
  | resp (pl : Payload)
  | noResponse

/-- The `Callback` class: one key, its responders, and the collected
responses. -/
structure Callback where
  key : Int
  responders : List Int
  resps : Dict Int RespValue

/-- The `CallbackHandler` class: outstanding callbacks keyed by callback
key, plus the key counter. -/
structure CallbackHandler where
  callbacks : Dict Int Callback
  curr_cbk : Int

/-- `CallbackHandler.handle_response`: unknown keys are dropped, known
keys store the whole payload under the response author. -/
def CallbackHandler.handle_response (h : CallbackHandler) (pl : Payload) :
    CallbackHandler :=
  match pl.data.callback? with
  | none => h
  | some key =>
      match h.callbacks.get? key with
      | none => h
      | some cb =>
          let cb' := { cb with resps := cb.resps.set pl.author (.resp pl) }
          { h with callbacks := h.callbacks.set key cb' }

/-- The `seconds` component of a positive `datetime.timedelta`, from an
elapsed time in microseconds: whole seconds, modulo one day. -/
def tdSeconds (elapsedMicros : Nat) : Nat :=
  elapsedMicros / 1000000 % 86400

/-- The `missing` list computed at the top of each `Callback.wait`
iteration: responders with no entry in `resps`. -/
def Callback.missing (cb : Callback) : List Int :=
  cb.responders.filter (fun uid => (cb.resps.get? uid).isNone)

/-- The timeout branch of `Callback.wait`: every missing responder is
assigned `NoResponse`. -/
def Callback.fillNoResponse (cb : Callback) : Callback :=
  { cb with
    resps := cb.missing.foldl (fun d uid => d.set uid .noResponse) cb.resps }

/-- One iteration of the `Callback.wait` polling loop, at a given elapsed
time: return if nothing is missing; else fill with `NoResponse` and
return if `(utcnow() - start).seconds > timeout`; else keep sleeping.
The second component records whether the wait returned. -/
def Callback.waitPoll (cb : Callback) (elapsedMicros : Nat) (timeout : ℚ) :
    Callback × Bool :=
  if cb.missing = [] then (cb, true)
  else if (tdSeconds elapsedMicros : ℚ) > timeout then
    (cb.fillNoResponse, true)
  else (cb, false)

/-- Routing of one inbound response to the waiting callback record, as
`handle_response` does it: the key must match, then the whole payload is
stored under the author. -/
def Callback.applyResp (cb : Callback) (pl : Payload) : Callback :=
  if pl.data.callback? = some cb.key then
    { cb with resps := cb.resps.set pl.author (.resp pl) }
  else cb

/-- Responses handled during one sleep of the wait loop, and the elapsed
time at the following poll. -/
structure PollEvent where
  arrivals : List Payload
  elapsedMicros : Nat

/-- The `Callback.wait` loop, driven by a schedule of poll events: apply
the responses that arrived during the sleep, then poll.  The Boolean
records whether the wait returned within the schedule. -/
def Callback.waitSteps (timeout : ℚ) :
    Callback → List PollEvent → Callback × Bool
  | cb, [] => (cb, false)
  | cb, ev :: rest =>
      let cb1 := ev.arrivals.foldl Callback.applyResp cb
      let r := cb1.waitPoll ev.elapsedMicros timeout
      if r.2 then (r.1, true) else Callback.waitSteps timeout r.1 rest

/-- `IpcClient.send_command`: allocate a callback over `to`, send the
command, wait with the *default* timeout (the source calls `cb.wait()`
with no argument, and `send_command` itself has no timeout parameter),
and return `cb.resps`.  `key` is the key the handler allocated; the
schedule stands for the responses routed to the record while waiting. -/
def send_command (dest : List Int) (key : Int) (schedule : List PollEvent) :
    Dict Int RespValue × Bool :=
  let cb : Callback := ⟨key, dest, []⟩
  let r := Callback.waitSteps 3 cb schedule
  (r.1.resps, r.2)

/-! ### Command dispatcher (`commands.py`) -/

/-- The observable outcome of one command handler invocation: a normal
return carrying the returned data, or an exception carrying its
formatted traceback. -/
inductive HandlerOutcome where
  | ok (r : J)
  | raises (tb : String)

/-- The `CommandHandler.commands` table: at most one handler per name. -/
abbrev CommandTable := Dict String (Payload → HandlerOutcome)

/-- A response emitted by the dispatcher through one of the
`send_*_response` primitives: its destination and its data variant. -/
structure SentResponse where
  dest : List Int
  data : PayloadData

/-- `CommandHandler.handle_command`: look the name up; absent → one
`ResponseNotFound` to the author; normal return → one `ResponseOk`;
exception → one `ResponseTraceback`.  Returns the list of responses
sent. -/
def handle_command (cmds : CommandTable) (pl : Payload) :
    List SentResponse :=
  match pl.data with
  | .command name cbk _ =>
      match cmds.get? name with
      | none => [⟨[pl.author], .responseNotFound cbk⟩]
      | some f =>
          match f pl with
          | .ok r => [⟨[pl.author], .responseOk cbk r⟩]
          | .raises tb => [⟨[pl.author], .responseTraceback cbk tb⟩]
  | _ => []

/-! ### Client presence caches and event handlers (`ipc_client.py`) -/

/-- The mutable attributes of `IpcClient` the claims concern:
the presence set, the brain uid, the three info caches, and the
callback handler. -/
structure ClientState where
  client_uids : Finset Int
  brain_uid : Option Int
  servers : Dict Int ServerInfo
  clusters : Dict Int ClusterInfo
  clusters_by_cluster_id : Dict Nat ClusterInfo
  callbacks : CallbackHandler

/-- The property `IpcClient.server_uids` (keys of the server cache). -/
def ClientState.server_uids (st : ClientState) : List Int := st.servers.keys

/-- `IpcClient.all_shards`: union of `shard_ids` over cached clusters
that are ready, whose server is cached, and that appear in that server's
`cluster_uids`. -/
def ClientState.all_shards (st : ClientState) : Finset Nat :=
  st.clusters.values.foldl
    (fun acc c =>
      if !c.ready then acc
      else
        match st.servers.get? c.server_uid with
        | none => acc
        | some s =>
            if c.uid ∈ s.cluster_uids then acc ∪ c.shard_ids.toFinset
            else acc)
    ∅

/-- `IpcClient._update_clients`: replace the presence set, evict cached
servers and clusters whose uid is not in the new set, and delete the
`clusters_by_cluster_id` entries of the evicted clusters.  Nothing else
is touched (notably neither `brain_uid` nor the callback handler). -/
def ClientState.update_clients (st : ClientState) (new_uids : Finset Int) :
    ClientState :=
  let servers : Dict Int ServerInfo :=
    st.servers.filter (fun p => decide (p.1 ∈ new_uids))
  let to_remove : List Nat :=
    (Dict.values (st.clusters.filter (fun p => decide (p.1 ∉ new_uids)))).map
      ClusterInfo.cluster_id
  let clusters : Dict Int ClusterInfo :=
    st.clusters.filter (fun p => decide (p.1 ∈ new_uids))
  let cbci := to_remove.foldl Dict.eraseKey st.clusters_by_cluster_id
  { st with
    client_uids := new_uids
    servers := servers
    clusters := clusters
    clusters_by_cluster_id := cbci }

/-- Read a JSON value as a Boolean. -/
def J.asBool : J → Option Bool
  | .bool b => some b
  | _ => none

/-- Read each element of a list of JSON values as a nonnegative integer
(a shard id). -/
def readNatList : List J → Option (List Nat)
  | [] => some []
  | x :: xs => do
      let n ← x.asInt
      if n < 0 then none
      else
        let rest ← readNatList xs
        pure (n.toNat :: rest)

/-- Reconstruction of `ServerInfo(**pl.data.data)`. -/
def decodeServerInfo (d : J) : Option ServerInfo := do
  let uid ← (d.lookup "uid").bind J.asInt
  let cu ← (d.lookup "cluster_uids").bind J.asIntList
  pure ⟨uid, cu⟩

/-- Reconstruction of `ClusterInfo(**pl.data.data)`. -/
def decodeClusterInfo (d : J) : Option ClusterInfo := do
  let uid ← (d.lookup "uid").bind J.asInt
  let su ← (d.lookup "server_uid").bind J.asInt
  let sids ←
    match d.lookup "shard_ids" with
    | some (.arr xs) => readNatList xs
    | _ => none
  let rdy ← (d.lookup "ready").bind J.asBool
  pure ⟨uid, su, sids, rdy⟩

/-- `EventHandler.handle_event` with the table registered by
`IpcClient` (`set_brain_uid`, `set_cluster_info`, `set_server_info`;
the brain's client registers nothing further).  A handler exception
(here: a malformed data block) is logged and swallowed; a name with no
registered handlers does nothing. -/
def ClientState.handle_event (st : ClientState) (pl : Payload) :
    ClientState :=
  match pl.data with
  | .event name d =>
      if name = "set_brain_uid" then
        match (d.lookup "uid").bind J.asInt with
        | some uid => { st with brain_uid := some uid }
        | none => st
      else if name = "set_cluster_info" then
        match decodeClusterInfo d with
        | some ci =>
            { st with
              clusters_by_cluster_id :=
                st.clusters_by_cluster_id.set ci.cluster_id ci
              clusters := st.clusters.set ci.uid ci }
        | none => st
      else if name = "set_server_info" then
        match decodeServerInfo d with
        | some si => { st with servers := st.servers.set si.uid si }
        | none => st
      else st
  | _ => st

/-- One inbound wire frame: the internal presence shape, or an opcoded
payload message. -/
inductive Frame where
  | internal (client_uids : Finset Int)
  | message (j : J)

/-- `IpcClient._handle_message`, run on a freshly spawned task: decode,
then route to the command handler, the event handler, or the callback
handler.  A decoding failure is the exception the task manager logs:
the state is untouched and nothing is sent. -/
def ClientState.handle_message (st : ClientState) (cmds : CommandTable)
    (j : J) : ClientState × List SentResponse :=
  match deserialize_payload j with
  | none => (st, [])
  | some pl =>
      match pl.data with
      | .command .. => (st, handle_command cmds pl)
      | .event .. => (st.handle_event pl, [])
      | _ => ({ st with callbacks := st.callbacks.handle_response pl }, [])

/-- `IpcClient._recv_loop` over a list of inbound frames: presence
frames update the caches inline; payload frames are handled on their
own tasks, so a failure in one cannot stop the loop. -/
def ClientState.recv_loop (cmds : CommandTable) :
    ClientState → List Frame → ClientState × List SentResponse
  | st, [] => (st, [])
  | st, .internal uids :: rest =>
      ClientState.recv_loop cmds (st.update_clients uids) rest
  | st, .message j :: rest =>
      let r1 := st.handle_message cmds j
      let r2 := ClientState.recv_loop cmds r1.1 rest
      (r2.1, r1.2 ++ r2.2)

/-! ### Hub server receive loop (`ipc_server.py`) -/

/-- `IpcServer._dispatch`: forward the raw frame to each recipient that
is present (and open) in the `clients` registry; others are skipped. -/
def dispatch (clients : Dict Int Unit) (recipients : List Int) (msg : J) :
    List (Int × J) :=
  (recipients.filter (fun cid => (clients.get? cid).isSome)).map
    (fun cid => (cid, msg))

/-- The receive phase of `IpcServer._serve` for the client `uid`, over
the frames it sends: each frame is decoded to learn its recipients and
forwarded raw.  A decoding failure (for example an unknown opcode)
raises out of the `while` loop: the `finally` removes `uid` from the
registry, the exception is logged, and the handler returns, so no later
frame of this client is processed.  A normal close also removes `uid`.
Returns the forwarded (recipient, frame) pairs and the final registry. -/
def serve_recv (uid : Int) :
    Dict Int Unit → List J → List (Int × J) × Dict Int Unit
  | clients, [] => ([], clients.eraseKey uid)
  | clients, msg :: rest =>
      match deserialize_payload msg with
      | none => ([], clients.eraseKey uid)
      | some pl =>
          let fwd := dispatch clients pl.recipients msg
          let r := serve_recv uid clients rest
          (fwd ++ r.1, r.2)

/-! ### Brain placement controller (`brain.py`) -/

/-- The brain's configuration and mutable state: the three sizing
parameters, its hub client caches, and the `_waiting_for` slot. -/
structure BrainState where
  total_servers : Nat
  cluster_per_server : Nat
  shards_per_cluster : Nat
  ipc : ClientState
  waiting_for_slot : Option (Int × Nat)

/-- The property `Brain.total_clusters`. -/
def BrainState.total_clusters (b : BrainState) : Nat :=
  b.total_servers * b.cluster_per_server

/-- The property `Brain.total_shards`. -/
def BrainState.total_shards (b : BrainState) : Nat :=
  b.total_clusters * b.shards_per_cluster

/-- The getter of the `Brain.waiting_for` property, which invalidates
the slot on read: clear it if the target server is no longer cached, or
else if the smallest shard now appears in `all_shards()`. -/
def BrainState.waiting_for_read (b : BrainState) : BrainState :=
  match b.waiting_for_slot with
  | none => b
  | some (server_uid, smallest_shard) =>
      if server_uid ∉ b.ipc.server_uids then
        { b with waiting_for_slot := none }
      else if smallest_shard ∈ b.ipc.all_shards then
        { b with waiting_for_slot := none }
      else b

/-- Python `min` over a list of naturals (0 on the empty list, where
Python raises; call sites pass nonempty lists). -/
def listMinNat (l : List Nat) : Nat := l.min?.getD 0

/-- `Brain._get_next_cluster_to_launch`.  The returned state records the
side effect of reading the `waiting_for` property.  `list(...)` of a
CPython set of small nonnegative integers iterates in ascending order,
hence the sorted view of the shard set. -/
def BrainState.get_next_cluster_to_launch (b : BrainState) :
    BrainState × Option (Int × List Nat) :=
  if b.ipc.server_uids.length = 0 then (b, none)
  else if !((Dict.values b.ipc.clusters).all (fun c => c.ready)) then
    (b, none)
  else if b.waiting_for_read.waiting_for_slot ≠ none then
    (b.waiting_for_read, none)
  else
    match (Dict.values b.ipc.servers).find?
        (fun s => s.cluster_uids.length < b.cluster_per_server) with
    | none => (b.waiting_for_read, none)
    | some s =>
        if Finset.range b.total_shards \ b.ipc.all_shards = ∅ then
          (b.waiting_for_read, none)
        else
          (b.waiting_for_read, some (s.uid,
            ((Finset.range b.total_shards \ b.ipc.all_shards).sort
              (· ≤ ·)).take b.shards_per_cluster))

/-- The `launch_cluster` command the brain sends on a successful tick. -/
structure SentCommand where
  dest : List Int
  name : String
  shard_ids : List Nat
  shard_count : Nat

/-- One iteration of `Brain._main_loop` after the sleep: ask the
selector; on `None` do nothing, otherwise send `launch_cluster` to the
chosen server and set `waiting_for = (server_uid, min(shards))`. -/
def BrainState.main_loop_tick (b : BrainState) :
    BrainState × Option SentCommand :=
  match b.get_next_cluster_to_launch with
  | (b1, none) => (b1, none)
  | (b1, some (server_uid, shards)) =>
      ({ b1 with waiting_for_slot := some (server_uid, listMinNat shards) },
       some ⟨[server_uid], "launch_cluster", shards, b1.total_shards⟩)

/-- Dispatch of an inbound event payload on the brain's hub client.
`brain.py` registers no event handlers of its own, so the table is
exactly the one of `IpcClient`. -/
def BrainState.handle_event (b : BrainState) (pl : Payload) : BrainState :=
  { b with ipc := b.ipc.handle_event pl }

/-! Concrete states used to evaluate the model at specific inputs. -/

/-- A brain state with one server (uid 10) below its cluster cap and one
ready, fully acknowledged cluster (uid 20) owning every shard id. -/
def bC5sat : BrainState :=
  ⟨1, 2, 2,
   ⟨{1, 10, 20}, none, [(10, ⟨10, [20]⟩)],
    [(20, ⟨20, 10, [0, 1, 2, 3], true⟩)], [], ⟨[], 0⟩⟩,
   none⟩

/-- A brain state with one empty server (uid 10) and no clusters. -/
def bC5launch : BrainState :=
  ⟨1, 1, 2, ⟨{1, 10}, none, [(10, ⟨10, []⟩)], [], [], ⟨[], 0⟩⟩, none⟩

/-- A brain state waiting on (server 10, smallest shard 5), with the
server cached and shard 5 not live. -/
def bC6wait : BrainState :=
  ⟨1, 1, 1,
   ⟨{10, 20}, none, [(10, ⟨10, [20]⟩)], [(20, ⟨20, 10, [0], true⟩)], [],
    ⟨[], 0⟩⟩,
   some (10, 5)⟩

/-- A brain state waiting on a server that is no longer cached. -/
def bC6gone : BrainState :=
  ⟨1, 1, 1, ⟨∅, none, [], [], [], ⟨[], 0⟩⟩, some (10, 5)⟩

/-! ## Theorems

First the library of helper lemmas about the dictionary model and the
callback engine, then the theorems settling the specification claims. -/

theorem Dict.get?_eraseKey {K V : Type} [DecidableEq K]
    (d : Dict K V) (k k' : K) :
    (d.eraseKey k).get? k' = if k' = k then none else d.get? k' := by
  induction d with
  | nil => by_cases h : k' = k <;> simp [Dict.eraseKey, Dict.get?, h]
  | cons p rest ih =>
      obtain ⟨a, v⟩ := p
      by_cases hak : a = k
      · subst hak
        by_cases hk' : k' = a
        · subst hk'
          simp [Dict.eraseKey, Dict.get?, ih]
        · simp [Dict.eraseKey, Dict.get?, hk', ih, Ne.symm hk']
      · by_cases hk' : a = k'
        · have h1 : ¬k' = k := fun h => hak (hk'.trans h)
          simp [Dict.eraseKey, Dict.get?, hak, hk', h1]
        · simp [Dict.eraseKey, Dict.get?, hak, hk', ih]

theorem Dict.get?_set {K V : Type} [DecidableEq K]
    (d : Dict K V) (k k' : K) (v : V) :
    (d.set k v).get? k' = if k' = k then some v else d.get? k' := by
  induction d with
  | nil =>
      by_cases h : k' = k
      · simp [Dict.set, Dict.get?, h]
      · simp [Dict.set, Dict.get?, h, Ne.symm h]
  | cons p rest ih =>
      obtain ⟨a, w⟩ := p
      by_cases hak : a = k
      · subst hak
        by_cases hk' : a = k'
        · subst hk'
          simp [Dict.set, Dict.get?]
        · simp [Dict.set, Dict.get?, hk', Ne.symm hk']
      · by_cases hk' : a = k'
        · have h1 : ¬k' = k := fun h => hak (hk'.trans h)
          simp [Dict.set, Dict.get?, hak, hk', h1]
        · simp [Dict.set, Dict.get?, hak, hk', ih]

theorem Dict.get?_filterKey {K V : Type} [DecidableEq K]
    (d : Dict K V) (q : K → Bool) (k : K) :
    Dict.get? (d.filter (fun p => q p.1)) k =
      if q k then d.get? k else none := by
  induction d with
  | nil => by_cases h : q k <;> simp [Dict.get?, h]
  | cons p rest ih =>
      obtain ⟨a, v⟩ := p
      by_cases ha : q a
      · by_cases hk : a = k
        · subst hk
          simp [List.filter_cons, ha, Dict.get?]
        · simp [List.filter_cons, ha, Dict.get?, hk, ih]
      · by_cases hk : a = k
        · subst hk
          simp [List.filter_cons, ha, Dict.get?, ih]
        · simp [List.filter_cons, ha, Dict.get?, hk, ih]

theorem asIntList_map_int (xs : List Int) :
    J.asIntList (.arr (xs.map J.int)) = some xs := by
  have h : ∀ ys : List Int, readIntList (ys.map J.int) = some ys := by
    intro ys
    induction ys with
    | nil => rfl
    | cons y ys ih => simp [readIntList, ih, J.asInt]
  simp [J.asIntList, h]

/-! Helper lemmas about the callback engine. -/

theorem mem_missing (cb : Callback) (uid : Int) :
    uid ∈ cb.missing ↔
      uid ∈ cb.responders ∧ (cb.resps.get? uid).isNone = true := by
  simp [Callback.missing, List.mem_filter]

theorem isSome_of_not_missing (cb : Callback) (uid : Int)
    (hr : uid ∈ cb.responders) (hm : uid ∉ cb.missing) :
    (cb.resps.get? uid).isSome = true := by
  by_contra hc
  apply hm
  rw [mem_missing]
  refine ⟨hr, ?_⟩
  cases h : cb.resps.get? uid with
  | none => rfl
  | some v => rw [h] at hc; simp at hc

theorem missing_nil_isSome (cb : Callback) (h : cb.missing = [])
    (uid : Int) (hu : uid ∈ cb.responders) :
    (cb.resps.get? uid).isSome = true := by
  refine isSome_of_not_missing cb uid hu ?_
  simp [h]

theorem fill_get? (xs : List Int) (d : Dict Int RespValue) (uid : Int) :
    (xs.foldl (fun d u => Dict.set d u RespValue.noResponse) d).get? uid =
      if uid ∈ xs then some RespValue.noResponse else d.get? uid := by
  induction xs generalizing d with
  | nil => simp
  | cons x xs ih =>
      simp only [List.foldl_cons]
      rw [ih]
      by_cases hx : uid ∈ xs
      · simp [hx]
      · by_cases hux : uid = x
        · simp [hx, hux, Dict.get?_set]
        · simp [hx, hux, Dict.get?_set]

theorem fillNoResponse_get? (cb : Callback) (uid : Int) :
    cb.fillNoResponse.resps.get? uid =
      if uid ∈ cb.missing then some RespValue.noResponse
      else cb.resps.get? uid := by
  simp [Callback.fillNoResponse, fill_get?]

theorem fillNoResponse_key (cb : Callback) :
    cb.fillNoResponse.key = cb.key := rfl

theorem fillNoResponse_responders (cb : Callback) :
    cb.fillNoResponse.responders = cb.responders := rfl

theorem applyResp_key (cb : Callback) (pl : Payload) :
    (cb.applyResp pl).key = cb.key := by
  unfold Callback.applyResp
  split <;> rfl

theorem applyResp_responders (cb : Callback) (pl : Payload) :
    (cb.applyResp pl).responders = cb.responders := by
  unfold Callback.applyResp
  split <;> rfl

theorem applyResp_get? (cb : Callback) (pl : Payload) (uid : Int) :
    (cb.applyResp pl).resps.get? uid =
      if pl.data.callback? = some cb.key ∧ uid = pl.author then
        some (RespValue.resp pl)
      else cb.resps.get? uid := by
  unfold Callback.applyResp
  by_cases hk : pl.data.callback? = some cb.key
  · simp only [hk, if_true, true_and]
    rw [Dict.get?_set]
  · simp [hk]

theorem applyList_key (pls : List Payload) (cb : Callback) :
    (pls.foldl Callback.applyResp cb).key = cb.key := by
  induction pls generalizing cb with
  | nil => rfl
  | cons p ps ih =>
      simp only [List.foldl_cons]
      rw [ih, applyResp_key]

theorem applyList_responders (pls : List Payload) (cb : Callback) :
    (pls.foldl Callback.applyResp cb).responders = cb.responders := by
  induction pls generalizing cb with
  | nil => rfl
  | cons p ps ih =>
      simp only [List.foldl_cons]
      rw [ih, applyResp_responders]

theorem applyList_get? (pls : List Payload) (cb : Callback) (uid : Int)
    (v : RespValue)
    (h : (pls.foldl Callback.applyResp cb).resps.get? uid = some v) :
    cb.resps.get? uid = some v ∨
      ∃ pl ∈ pls, pl.author = uid ∧ pl.data.callback? = some cb.key ∧
        v = RespValue.resp pl := by
  induction pls generalizing cb with
  | nil => exact Or.inl h
  | cons p ps ih =>
      simp only [List.foldl_cons] at h
      rcases ih (cb.applyResp p) h with h1 | ⟨pl, hmem, hau, hcbk, hv⟩
      · rw [applyResp_get?] at h1
        by_cases hc : p.data.callback? = some cb.key ∧ uid = p.author
        · rw [if_pos hc] at h1
          right
          exact ⟨p, List.mem_cons_self p ps, hc.2.symm, hc.1,
            (Option.some.injEq _ _ ▸ h1 : _) ▸ rfl⟩
        · rw [if_neg hc] at h1
          exact Or.inl h1
      · right
        rw [applyResp_key] at hcbk
        exact ⟨pl, List.mem_cons_of_mem p hmem, hau, hcbk, hv⟩

theorem applyList_mono (pls : List Payload) (cb : Callback) (uid : Int)
    (h : (cb.resps.get? uid).isSome = true) :
    ((pls.foldl Callback.applyResp cb).resps.get? uid).isSome = true := by
  induction pls generalizing cb with
  | nil => exact h
  | cons p ps ih =>
      simp only [List.foldl_cons]
      apply ih
      rw [applyResp_get?]
      by_cases hc : p.data.callback? = some cb.key ∧ uid = p.author
      · rw [if_pos hc]; rfl
      · rw [if_neg hc]; exact h

theorem waitSteps_responders (t : ℚ) (evs : List PollEvent) :
    ∀ cb : Callback,
      (Callback.waitSteps t cb evs).1.responders = cb.responders := by
  induction evs with
  | nil => intro cb; rfl
  | cons ev rest ih =>
      intro cb
      have h1 : (ev.arrivals.foldl Callback.applyResp cb).responders
          = cb.responders := applyList_responders _ _
      by_cases h0 : (ev.arrivals.foldl Callback.applyResp cb).missing = []
      · simp [Callback.waitSteps, Callback.waitPoll, h0, h1]
      · by_cases ht : (tdSeconds ev.elapsedMicros : ℚ) > t
        · simp [Callback.waitSteps, Callback.waitPoll, h0, ht,
            fillNoResponse_responders, h1]
        · simp [Callback.waitSteps, Callback.waitPoll, h0, ht, ih, h1]

theorem waitSteps_complete (t : ℚ) (evs : List PollEvent) :
    ∀ cb : Callback, (Callback.waitSteps t cb evs).2 = true →
      ∀ uid ∈ cb.responders,
        ((Callback.waitSteps t cb evs).1.resps.get? uid).isSome = true := by
  induction evs with
  | nil =>
      intro cb hfin
      simp [Callback.waitSteps] at hfin
  | cons ev rest ih =>
      intro cb hfin uid hu
      have h1 : (ev.arrivals.foldl Callback.applyResp cb).responders
          = cb.responders := applyList_responders _ _
      by_cases h0 : (ev.arrivals.foldl Callback.applyResp cb).missing = []
      · have heq : Callback.waitSteps t cb (ev :: rest)
            = (ev.arrivals.foldl Callback.applyResp cb, true) := by
          simp [Callback.waitSteps, Callback.waitPoll, h0]
        rw [heq]
        exact missing_nil_isSome _ h0 uid (by rw [h1]; exact hu)
      · by_cases ht : (tdSeconds ev.elapsedMicros : ℚ) > t
        · have heq : Callback.waitSteps t cb (ev :: rest)
              = ((ev.arrivals.foldl Callback.applyResp cb).fillNoResponse,
                true) := by
            simp [Callback.waitSteps, Callback.waitPoll, h0, ht]
          rw [heq]
          by_cases hm : uid ∈ (ev.arrivals.foldl Callback.applyResp cb).missing
          · simp [fillNoResponse_get?, hm]
          · have hs := isSome_of_not_missing _ uid (by rw [h1]; exact hu) hm
            simp [fillNoResponse_get?, hm, hs]
        · have heq : Callback.waitSteps t cb (ev :: rest)
              = Callback.waitSteps t
                  (ev.arrivals.foldl Callback.applyResp cb) rest := by
            simp [Callback.waitSteps, Callback.waitPoll, h0, ht]
          rw [heq] at hfin ⊢
          exact ih _ hfin uid (by rw [h1]; exact hu)

theorem waitSteps_provenance (t : ℚ) (evs : List PollEvent) :
    ∀ (cb : Callback) (uid : Int),
      ((Callback.waitSteps t cb evs).1.resps.get? uid).isSome = true →
      (cb.resps.get? uid).isSome = true ∨ uid ∈ cb.responders ∨
        ∃ ev ∈ evs, ∃ pl ∈ ev.arrivals,
          pl.author = uid ∧ pl.data.callback? = some cb.key := by
  induction evs with
  | nil =>
      intro cb uid h
      left
      simpa [Callback.waitSteps] using h
  | cons ev rest ih =>
      intro cb uid h
      have hkey : (ev.arrivals.foldl Callback.applyResp cb).key = cb.key :=
        applyList_key _ _
      have hresp : (ev.arrivals.foldl Callback.applyResp cb).responders
          = cb.responders := applyList_responders _ _
      have trans1 :
          (((ev.arrivals.foldl Callback.applyResp cb).resps.get?
              uid).isSome) = true →
          (cb.resps.get? uid).isSome = true ∨ uid ∈ cb.responders ∨
            ∃ ev' ∈ ev :: rest, ∃ pl ∈ ev'.arrivals,
              pl.author = uid ∧ pl.data.callback? = some cb.key := by
        intro hs
        obtain ⟨v, hv⟩ := Option.isSome_iff_exists.mp hs
        rcases applyList_get? ev.arrivals cb uid v hv with
          h1 | ⟨pl, hml, hau, hk, _⟩
        · left; rw [h1]; rfl
        · right; right
          exact ⟨ev, List.mem_cons_self ev rest, pl, hml, hau, hk⟩
      by_cases h0 : (ev.arrivals.foldl Callback.applyResp cb).missing = []
      · have heq : Callback.waitSteps t cb (ev :: rest)
            = (ev.arrivals.foldl Callback.applyResp cb, true) := by
          simp [Callback.waitSteps, Callback.waitPoll, h0]
        rw [heq] at h
        exact trans1 h
      · by_cases ht : (tdSeconds ev.elapsedMicros : ℚ) > t
        · have heq : Callback.waitSteps t cb (ev :: rest)
              = ((ev.arrivals.foldl Callback.applyResp cb).fillNoResponse,
                true) := by
            simp [Callback.waitSteps, Callback.waitPoll, h0, ht]
          rw [heq] at h
          by_cases hm :
              uid ∈ (ev.arrivals.foldl Callback.applyResp cb).missing
          · right; left
            have hmm := (mem_missing _ uid).mp hm
            rw [hresp] at hmm
            exact hmm.1
          · simp only [fillNoResponse_get?, hm, if_neg, if_false] at h
            exact trans1 (by simpa [hm] using h)
        · have heq : Callback.waitSteps t cb (ev :: rest)
              = Callback.waitSteps t
                  (ev.arrivals.foldl Callback.applyResp cb) rest := by
            simp [Callback.waitSteps, Callback.waitPoll, h0, ht]
          rw [heq] at h
          rcases ih _ uid h with h1 | h2 | ⟨ev', hev', pl, hpl, hau, hk⟩
          · exact trans1 h1
          · right; left
            rw [hresp] at h2
            exact h2
          · right; right
            rw [hkey] at hk
            exact ⟨ev', List.mem_cons_of_mem ev hev', pl, hpl, hau, hk⟩

theorem waitSteps_values (t : ℚ) (evs : List PollEvent) :
    ∀ (cb : Callback) (uid : Int) (v : RespValue),
      (Callback.waitSteps t cb evs).1.resps.get? uid = some v →
      cb.resps.get? uid = some v ∨ v = RespValue.noResponse ∨
        ∃ ev ∈ evs, ∃ pl ∈ ev.arrivals, v = RespValue.resp pl := by
  induction evs with
  | nil =>
      intro cb uid v h
      left
      simpa [Callback.waitSteps] using h
  | cons ev rest ih =>
      intro cb uid v h
      have trans1 :
          (ev.arrivals.foldl Callback.applyResp cb).resps.get? uid = some v →
          cb.resps.get? uid = some v ∨ v = RespValue.noResponse ∨
            ∃ ev' ∈ ev :: rest, ∃ pl ∈ ev'.arrivals,
              v = RespValue.resp pl := by
        intro hv
        rcases applyList_get? ev.arrivals cb uid v hv with
          h1 | ⟨pl, hml, _, _, hvv⟩
        · exact Or.inl h1
        · right; right
          exact ⟨ev, List.mem_cons_self ev rest, pl, hml, hvv⟩
      by_cases h0 : (ev.arrivals.foldl Callback.applyResp cb).missing = []
      · have heq : Callback.waitSteps t cb (ev :: rest)
            = (ev.arrivals.foldl Callback.applyResp cb, true) := by
          simp [Callback.waitSteps, Callback.waitPoll, h0]
        rw [heq] at h
        exact trans1 h
      · by_cases ht : (tdSeconds ev.elapsedMicros : ℚ) > t
        · have heq : Callback.waitSteps t cb (ev :: rest)
              = ((ev.arrivals.foldl Callback.applyResp cb).fillNoResponse,
                true) := by
            simp [Callback.waitSteps, Callback.waitPoll, h0, ht]
          rw [heq] at h
          by_cases hm :
              uid ∈ (ev.arrivals.foldl Callback.applyResp cb).missing
          · right; left
            have := h
            simp only [fillNoResponse_get?, hm, if_pos, if_true] at this
            simp only [fillNoResponse_get?] at h
            rw [if_pos hm] at h
            exact (Option.some.injEq _ _ ▸ h).symm
          · simp only [fillNoResponse_get?] at h
            rw [if_neg hm] at h
            exact trans1 h
        · have heq : Callback.waitSteps t cb (ev :: rest)
              = Callback.waitSteps t
                  (ev.arrivals.foldl Callback.applyResp cb) rest := by
            simp [Callback.waitSteps, Callback.waitPoll, h0, ht]
          rw [heq] at h
          rcases ih _ uid v h with h1 | h2 | ⟨ev', hev', pl, hpl, hvv⟩
          · exact trans1 h1
          · exact Or.inr (Or.inl h2)
          · right; right
            exact ⟨ev', List.mem_cons_of_mem ev hev', pl, hpl, hvv⟩

/-- C1, counterexample: `handle_response` records a response under its
author whenever the callback key is known, without checking that the
author is a recipient.  Sending the command to `[2]` while a response
with the right key authored by uid 99 is handled leaves key 99 in the
returned map, so the key set is not exactly the recipient set. -/
theorem send_command_keyset_counterexample :
    (send_command [2] 1
        [⟨[⟨2, 99, [1], .responseOk 1 .null⟩,
           ⟨2, 2, [1], .responseOk 1 .null⟩], 100000⟩]).2 = true ∧
    (Dict.get? (send_command [2] 1
        [⟨[⟨2, 99, [1], .responseOk 1 .null⟩,
           ⟨2, 2, [1], .responseOk 1 .null⟩], 100000⟩]).1 99).isSome
      = true ∧
    (99 : Int) ∉ ([2] : List Int) := by
  refine ⟨rfl, rfl, by decide⟩

/-- C1 (amended): when `send_command(to=R, …)` returns, every uid of `R`
has an entry; every entry's key is in `R` or is the author of a handled
response bearing the callback key (unsolicited authors are recorded
too); every value is a stored response payload or `NoResponse`; and when
every handled response was authored by a member of `R`, the key set is
exactly `R`. -/
theorem send_command_result_map (dest : List Int) (key : Int)
    (schedule : List PollEvent)
    (hfin : (send_command dest key schedule).2 = true) :
    (∀ uid ∈ dest,
      (Dict.get? (send_command dest key schedule).1 uid).isSome = true) ∧
    (∀ uid : Int,
      (Dict.get? (send_command dest key schedule).1 uid).isSome = true →
      uid ∈ dest ∨ ∃ ev ∈ schedule, ∃ pl ∈ ev.arrivals,
        pl.author = uid ∧ pl.data.callback? = some key) ∧
    (∀ (uid : Int) (v : RespValue),
      Dict.get? (send_command dest key schedule).1 uid = some v →
      v = RespValue.noResponse ∨
        ∃ ev ∈ schedule, ∃ pl ∈ ev.arrivals, v = RespValue.resp pl) ∧
    ((∀ ev ∈ schedule, ∀ pl ∈ ev.arrivals, pl.author ∈ dest) →
      ∀ uid : Int,
        (Dict.get? (send_command dest key schedule).1 uid).isSome = true ↔
          uid ∈ dest) := by
  have h2 : ∀ uid : Int,
      (Dict.get? (send_command dest key schedule).1 uid).isSome = true →
      uid ∈ dest ∨ ∃ ev ∈ schedule, ∃ pl ∈ ev.arrivals,
        pl.author = uid ∧ pl.data.callback? = some key := by
    intro uid h
    rcases waitSteps_provenance 3 schedule ⟨key, dest, []⟩ uid h with
      h1 | h1 | h1
    · simp [Dict.get?] at h1
    · exact Or.inl h1
    · exact Or.inr h1
  have h1 : ∀ uid ∈ dest,
      (Dict.get? (send_command dest key schedule).1 uid).isSome = true := by
    intro uid hu
    exact waitSteps_complete 3 schedule ⟨key, dest, []⟩ hfin uid hu
  refine ⟨h1, h2, ?_, ?_⟩
  · intro uid v h
    rcases waitSteps_values 3 schedule ⟨key, dest, []⟩ uid v h with
      hv | hv | hv
    · simp [Dict.get?] at hv
    · exact Or.inl hv
    · exact Or.inr hv
  · intro hauth uid
    constructor
    · intro h
      rcases h2 uid h with h3 | ⟨ev, hev, pl, hpl, hau, _⟩
      · exact h3
      · rw [← hau]
        exact hauth ev hev pl hpl
    · exact h1 uid

theorem send_command_result_map_witness :
    (Dict.get? (send_command [2] 1
        [⟨[⟨2, 2, [1], .responseOk 1 .null⟩], 0⟩]).1 2).isSome = true :=
  (send_command_result_map [2] 1
      [⟨[⟨2, 2, [1], .responseOk 1 .null⟩], 0⟩] rfl).1 2 (by decide)

/-- C2, counterexample: `Callback.wait` compares
`(utcnow() - start).seconds > timeout`, the whole-second component with
a strict inequality, so 3.5 seconds after the start (seconds component
3) the wait with the default timeout of 3 neither assigns `NoResponse`
nor returns — it does not wait "at most" the timeout.  Moreover
`send_command` in this snapshot has no timeout parameter at all. -/
theorem send_command_timeout_counterexample :
    Callback.waitPoll ⟨1, [2], []⟩ 3500000 3 = (⟨1, [2], []⟩, false) ∧
    3500000 > 3 * 1000000 := by
  refine ⟨?_, by decide⟩
  have hm : (Callback.missing ⟨1, [2], []⟩) = [2] := rfl
  have ht : ¬((tdSeconds 3500000 : ℚ) > 3) := by norm_num [tdSeconds]
  simp [Callback.waitPoll, hm, ht]

/-- C2 (amended): `send_command` exposes no timeout parameter; the wait
it performs uses the default timeout of 3 seconds.  On a poll where
responders are still missing, they are all assigned `NoResponse` and
the wait returns exactly when the whole-second component of the elapsed
time strictly exceeds the timeout (for the default, at least 4 elapsed
seconds); on earlier polls the wait continues. -/
theorem wait_timeout_behavior (cb : Callback) (t : ℚ) (e : Nat)
    (hmiss : cb.missing ≠ []) :
    ((tdSeconds e : ℚ) > t →
      cb.waitPoll e t = (cb.fillNoResponse, true) ∧
      ∀ uid ∈ cb.missing,
        cb.fillNoResponse.resps.get? uid = some RespValue.noResponse) ∧
    (¬(tdSeconds e : ℚ) > t → cb.waitPoll e t = (cb, false)) := by
  constructor
  · intro ht
    refine ⟨by simp [Callback.waitPoll, hmiss, ht], ?_⟩
    intro uid hm
    simp [fillNoResponse_get?, hm]
  · intro ht
    simp [Callback.waitPoll, hmiss, ht]

theorem wait_timeout_behavior_witness :
    Callback.waitPoll ⟨1, [2], []⟩ 4000000 3 =
      (Callback.fillNoResponse ⟨1, [2], []⟩, true) :=
  ((wait_timeout_behavior ⟨1, [2], []⟩ 3 4000000 (by decide)).1
    (by norm_num [tdSeconds])).1

/-- C3, counterexample: a presence update that removes uid 3 leaves the
outstanding callback over responders `[3]` entirely untouched — no
`NoResponse` is recorded for uid 3, and a poll 3.9 seconds later still
neither completes nor fills, so the caller is not released early. -/
theorem presence_update_callbacks_counterexample :
    (ClientState.update_clients
        ⟨{1, 2, 3}, none, [], [], [], ⟨[(1, ⟨1, [3], []⟩)], 1⟩⟩
        {1, 2}).callbacks = ⟨[(1, ⟨1, [3], []⟩)], 1⟩ ∧
    Dict.get? (Callback.resps ⟨1, [3], []⟩) 3 = none ∧
    Callback.waitPoll ⟨1, [3], []⟩ 3900000 3 = (⟨1, [3], []⟩, false) := by
  refine ⟨rfl, rfl, ?_⟩
  have hm : (Callback.missing ⟨1, [3], []⟩) = [3] := rfl
  have ht : ¬((tdSeconds 3900000 : ℚ) > 3) := by norm_num [tdSeconds]
  simp [Callback.waitPoll, hm, ht]

/-- C3 (amended): `_update_clients` evicts server and cluster cache
entries but never notifies the callback engine: the callback handler is
left exactly as it was by every presence update, and a missing
responder — disconnected or not — is only ever assigned `NoResponse` by
the wait's own timeout. -/
theorem presence_update_leaves_callbacks (st : ClientState)
    (new_uids : Finset Int) :
    (st.update_clients new_uids).callbacks = st.callbacks ∧
    (∀ (cb : Callback) (e : Nat) (t : ℚ), cb.missing ≠ [] →
      ¬(tdSeconds e : ℚ) > t → cb.waitPoll e t = (cb, false)) := by
  constructor
  · rfl
  · intro cb e t hm ht
    simp [Callback.waitPoll, hm, ht]

theorem presence_update_leaves_callbacks_witness :
    (ClientState.update_clients
        ⟨{1}, none, [], [], [], ⟨[], 0⟩⟩ ∅).callbacks
      = (⟨[], 0⟩ : CallbackHandler) ∧
    Callback.waitPoll ⟨1, [5], []⟩ 1000000 3 = (⟨1, [5], []⟩, false) :=
  ⟨(presence_update_leaves_callbacks
      ⟨{1}, none, [], [], [], ⟨[], 0⟩⟩ ∅).1,
   (presence_update_leaves_callbacks
      ⟨{1}, none, [], [], [], ⟨[], 0⟩⟩ ∅).2 ⟨1, [5], []⟩ 1000000 3
      (by decide) (by norm_num [tdSeconds])⟩

/-- C4: for every inbound command payload the dispatcher sends exactly
one response, addressed to the author and carrying the command's
callback key: `ResponseNotFound` when the name is unregistered,
`ResponseOk` with the returned data on a normal return, and
`ResponseTraceback` with the formatted traceback when the handler
raises. -/
theorem handle_command_one_response (cmds : CommandTable) (pl : Payload)
    (name : String) (cbk : Int) (d : J)
    (hpl : pl.data = .command name cbk d) :
    (handle_command cmds pl).length = 1 ∧
    (∀ r ∈ handle_command cmds pl, r.dest = [pl.author]) ∧
    (cmds.get? name = none →
      handle_command cmds pl = [⟨[pl.author], .responseNotFound cbk⟩]) ∧
    (∀ f ret, cmds.get? name = some f → f pl = .ok ret →
      handle_command cmds pl = [⟨[pl.author], .responseOk cbk ret⟩]) ∧
    (∀ f tb, cmds.get? name = some f → f pl = .raises tb →
      handle_command cmds pl =
        [⟨[pl.author], .responseTraceback cbk tb⟩]) := by
  refine ⟨?_, ?_, ?_, ?_, ?_⟩
  · cases hg : cmds.get? name with
    | none => simp [handle_command, hpl, hg]
    | some f =>
        cases hff : f pl with
        | ok r => simp [handle_command, hpl, hg, hff]
        | raises tb => simp [handle_command, hpl, hg, hff]
  · intro r hr
    cases hg : cmds.get? name with
    | none =>
        simp [handle_command, hpl, hg] at hr
        simp [hr]
    | some f =>
        cases hff : f pl with
        | ok ret =>
            simp [handle_command, hpl, hg, hff] at hr
            simp [hr]
        | raises tb =>
            simp [handle_command, hpl, hg, hff] at hr
            simp [hr]
  · intro hg
    simp [handle_command, hpl, hg]
  · intro f ret hg hff
    simp [handle_command, hpl, hg, hff]
  · intro f tb hg hff
    simp [handle_command, hpl, hg, hff]

theorem handle_command_one_response_witness :
    handle_command [("ping", fun _ => HandlerOutcome.ok J.null)]
        ⟨0, 7, [9], .command "ping" 5 .null⟩
      = [⟨[7], .responseOk 5 .null⟩] :=
  (handle_command_one_response
      [("ping", fun _ => HandlerOutcome.ok J.null)]
      ⟨0, 7, [9], .command "ping" 5 .null⟩ "ping" 5 .null rfl).2.2.2.1
    (fun _ => HandlerOutcome.ok J.null) J.null rfl rfl

theorem mem_all_shards_foldl (st : ClientState) :
    ∀ (l : List ClusterInfo) (acc : Finset Nat) (x : Nat),
      (x ∈ l.foldl (fun acc c =>
        if !c.ready then acc
        else
          match Dict.get? st.servers c.server_uid with
          | none => acc
          | some s =>
              if c.uid ∈ s.cluster_uids then acc ∪ c.shard_ids.toFinset
              else acc) acc) ↔
      x ∈ acc ∨ ∃ c ∈ l, c.ready = true ∧
        (∃ s, Dict.get? st.servers c.server_uid = some s ∧
          c.uid ∈ s.cluster_uids) ∧ x ∈ c.shard_ids := by
  intro l
  induction l with
  | nil => simp
  | cons c cs ih =>
      intro acc x
      simp only [List.foldl_cons]
      rw [ih]
      have hhead : ∀ y : Nat,
          (y ∈ (if !c.ready then acc
            else
              match Dict.get? st.servers c.server_uid with
              | none => acc
              | some s =>
                  if c.uid ∈ s.cluster_uids then acc ∪ c.shard_ids.toFinset
                  else acc)) ↔
          y ∈ acc ∨ (c.ready = true ∧
            (∃ s, Dict.get? st.servers c.server_uid = some s ∧
              c.uid ∈ s.cluster_uids) ∧ y ∈ c.shard_ids) := by
        intro y
        by_cases hr : c.ready
        · cases hs : Dict.get? st.servers c.server_uid with
          | none => simp [hr, hs]
          | some s =>
              by_cases hu : c.uid ∈ s.cluster_uids
              · simp [hr, hs, hu, Finset.mem_union, List.mem_toFinset]
              · simp [hr, hs, hu]
        · have hr' : c.ready = false := by simpa using hr
          simp [hr']
      rw [hhead x, List.exists_mem_cons_iff, or_assoc]

/-- C7: `all_shards()` is exactly the union of `shard_ids` over the
cached clusters that pass the three-way acknowledgement — `ready` is
true, the cluster's `server_uid` is a cached server, and the cluster's
uid appears in that server's `cluster_uids`; shards of clusters failing
any check contribute nothing. -/
theorem all_shards_spec (st : ClientState) (x : Nat) :
    x ∈ st.all_shards ↔
      ∃ c ∈ Dict.values st.clusters, c.ready = true ∧
        (∃ s, Dict.get? st.servers c.server_uid = some s ∧
          c.uid ∈ s.cluster_uids) ∧ x ∈ c.shard_ids := by
  unfold ClientState.all_shards
  rw [mem_all_shards_foldl]
  simp

theorem foldl_eraseKey_get? {K V : Type} [DecidableEq K]
    (ks : List K) (d : Dict K V) (k : K) :
    Dict.get? (ks.foldl Dict.eraseKey d) k =
      if k ∈ ks then none else d.get? k := by
  induction ks generalizing d with
  | nil => simp
  | cons a as ih =>
      simp only [List.foldl_cons]
      rw [ih]
      by_cases hk : k ∈ as
      · simp [hk]
      · by_cases hka : k = a
        · simp [hk, hka, Dict.get?_eraseKey]
        · simp [hk, hka, Dict.get?_eraseKey]

theorem brain_uid_foldl (updates : List (Finset Int)) :
    ∀ st : ClientState,
      (updates.foldl ClientState.update_clients st).brain_uid
        = st.brain_uid := by
  induction updates with
  | nil => intro st; rfl
  | cons u us ih =>
      intro st
      simp only [List.foldl_cons]
      rw [ih]
      rfl

/-- C10: a presence update replaces the presence set, keeps exactly the
server and cluster cache entries whose uid is in the announced set,
deletes the `clusters_by_cluster_id` entries whose key is the cluster id
of an evicted cluster — and leaves `brain_uid` untouched, so after the
brain's uid leaves the presence set (and across any sequence of further
presence updates) the stale `brain_uid` is retained. -/
theorem update_clients_spec (st : ClientState) (new_uids : Finset Int) :
    (st.update_clients new_uids).client_uids = new_uids ∧
    (∀ uid : Int, Dict.get? (st.update_clients new_uids).servers uid =
      if uid ∈ new_uids then Dict.get? st.servers uid else none) ∧
    (∀ uid : Int, Dict.get? (st.update_clients new_uids).clusters uid =
      if uid ∈ new_uids then Dict.get? st.clusters uid else none) ∧
    (∀ cid : Nat,
      Dict.get? (st.update_clients new_uids).clusters_by_cluster_id cid =
        if ∃ p ∈ st.clusters, p.1 ∉ new_uids ∧ p.2.cluster_id = cid
        then none
        else Dict.get? st.clusters_by_cluster_id cid) ∧
    (st.update_clients new_uids).brain_uid = st.brain_uid ∧
    (∀ updates : List (Finset Int),
      (updates.foldl ClientState.update_clients st).brain_uid
        = st.brain_uid) := by
  refine ⟨rfl, ?_, ?_, ?_, rfl, fun updates => brain_uid_foldl updates st⟩
  · intro uid
    have h := Dict.get?_filterKey st.servers
      (fun k => decide (k ∈ new_uids)) uid
    simp only [ClientState.update_clients]
    rw [h]
    by_cases hu : uid ∈ new_uids <;> simp [hu]
  · intro uid
    have h := Dict.get?_filterKey st.clusters
      (fun k => decide (k ∈ new_uids)) uid
    simp only [ClientState.update_clients]
    rw [h]
    by_cases hu : uid ∈ new_uids <;> simp [hu]
  · intro cid
    simp only [ClientState.update_clients]
    rw [foldl_eraseKey_get?]
    have hmem :
        (cid ∈ (Dict.values (st.clusters.filter
            (fun p => decide (p.1 ∉ new_uids)))).map
              ClusterInfo.cluster_id) ↔
        ∃ p ∈ st.clusters, p.1 ∉ new_uids ∧ p.2.cluster_id = cid := by
      simp only [List.mem_map, Dict.values, List.mem_filter]
      constructor
      · rintro ⟨c, ⟨⟨p, ⟨hp, hdec⟩, hpc⟩, hcid⟩⟩
        exact ⟨p, hp, by simpa using hdec, by rw [hpc]; exact hcid⟩
      · rintro ⟨p, hp, hnot, hcid⟩
        exact ⟨p.2, ⟨p, ⟨hp, by simpa using hnot⟩, rfl⟩, hcid⟩
    by_cases hc : ∃ p ∈ st.clusters, p.1 ∉ new_uids ∧ p.2.cluster_id = cid
    · rw [if_pos (hmem.mpr hc), if_pos hc]
    · rw [if_neg (fun hh => hc (hmem.mp hh)), if_neg hc]

theorem waiting_for_read_cases (b : BrainState) :
    b.waiting_for_read = b ∨
      b.waiting_for_read = { b with waiting_for_slot := none } := by
  unfold BrainState.waiting_for_read
  cases b.waiting_for_slot with
  | none => exact Or.inl rfl
  | some p =>
      obtain ⟨su, ss⟩ := p
      show (if su ∉ b.ipc.server_uids then { b with waiting_for_slot := none }
            else if ss ∈ b.ipc.all_shards then
              { b with waiting_for_slot := none }
            else b) = b ∨
           (if su ∉ b.ipc.server_uids then { b with waiting_for_slot := none }
            else if ss ∈ b.ipc.all_shards then
              { b with waiting_for_slot := none }
            else b) = { b with waiting_for_slot := none }
      by_cases h1 : su ∉ b.ipc.server_uids
      · rw [if_pos h1]
        exact Or.inr rfl
      · rw [if_neg h1]
        by_cases h2 : ss ∈ b.ipc.all_shards
        · rw [if_pos h2]
          exact Or.inr rfl
        · rw [if_neg h2]
          exact Or.inl rfl

theorem waiting_for_read_ipc (b : BrainState) :
    b.waiting_for_read.ipc = b.ipc := by
  rcases waiting_for_read_cases b with h | h <;> rw [h]

theorem waiting_for_read_total (b : BrainState) :
    b.waiting_for_read.total_shards = b.total_shards := by
  rcases waiting_for_read_cases b with h | h
  · rw [h]
  · rw [h]
    rfl

theorem waiting_for_read_spc (b : BrainState) :
    b.waiting_for_read.shards_per_cluster = b.shards_per_cluster := by
  rcases waiting_for_read_cases b with h | h <;> rw [h]

/-- C6, counterexample: no handler is registered for `cluster_died`
anywhere in this snapshot, so an inbound `cluster_died` event carrying
exactly the waited-for smallest shard id (5) leaves the brain state —
in particular `_waiting_for` — unchanged, and the slot also survives the
property read since the server is cached and shard 5 is not live. -/
theorem cluster_died_counterexample :
    BrainState.handle_event bC6wait
        ⟨1, 20, [1], .event "cluster_died"
          (.obj [("smallest_shard_id", .int 5)])⟩ = bC6wait ∧
    bC6wait.waiting_for_read.waiting_for_slot = some (10, 5) ∧
    bC6wait.waiting_for_slot = some (10, 5) := by
  refine ⟨rfl, ?_, rfl⟩
  rfl

/-- C6 (amended): the `waiting_for` slot is cleared exactly by the
property read, on the earlier of (a) the target server disappearing
from the servers cache or (b) the waited-for smallest shard appearing
in the live shard set; otherwise it keeps its value.  `cluster_died`
events have no registered handler in this snapshot and never clear the
slot. -/
theorem waiting_for_clear_spec (b : BrainState) (su : Int) (ss : Nat)
    (h : b.waiting_for_slot = some (su, ss)) :
    ((su ∉ b.ipc.server_uids ∨ ss ∈ b.ipc.all_shards) →
      b.waiting_for_read.waiting_for_slot = none) ∧
    (su ∈ b.ipc.server_uids → ss ∉ b.ipc.all_shards →
      b.waiting_for_read = b) ∧
    (∀ (author : Int) (recs : List Int) (d : J),
      BrainState.handle_event b ⟨1, author, recs, .event "cluster_died" d⟩
        = b) := by
  refine ⟨?_, ?_, ?_⟩
  · intro hd
    unfold BrainState.waiting_for_read
    rw [h]
    show (if su ∉ b.ipc.server_uids then { b with waiting_for_slot := none }
          else if ss ∈ b.ipc.all_shards then
            { b with waiting_for_slot := none }
          else b).waiting_for_slot = none
    by_cases h1 : su ∉ b.ipc.server_uids
    · rw [if_pos h1]
    · rw [if_neg h1]
      rcases hd with hd | hd
      · exact absurd hd h1
      · rw [if_pos hd]
  · intro h1 h2
    unfold BrainState.waiting_for_read
    rw [h]
    show (if su ∉ b.ipc.server_uids then { b with waiting_for_slot := none }
          else if ss ∈ b.ipc.all_shards then
            { b with waiting_for_slot := none }
          else b) = b
    rw [if_neg (by simpa using h1), if_neg h2]
  · intro author recs d
    rfl

theorem waiting_for_clear_spec_witness :
    bC6gone.waiting_for_read.waiting_for_slot = none ∧
    BrainState.handle_event bC6gone
        ⟨1, 2, [1], .event "cluster_died" .null⟩ = bC6gone :=
  ⟨(waiting_for_clear_spec bC6gone 10 5 rfl).1 (Or.inl (by decide)),
   (waiting_for_clear_spec bC6gone 10 5 rfl).2.2 2 [1] .null⟩

theorem foldl_min_le (xs : List Nat) :
    ∀ x : Nat, xs.foldl min x ≤ x := by
  induction xs with
  | nil => intro x; exact Nat.le_refl x
  | cons a as ih =>
      intro x
      exact Nat.le_trans (ih (min x a)) (Nat.min_le_left x a)

/-- C5, counterexample: the four preconditions of the claim hold — a
server is present, every cluster is ready, nothing is pending, the
server is below its cluster cap — yet because the one cluster already
covers every shard id, the needed-shard set is empty and the brain
launches nothing, where the claim demands a `launch_cluster` send. -/
theorem launch_preconditions_counterexample :
    bC5sat.ipc.server_uids.length ≠ 0 ∧
    (Dict.values bC5sat.ipc.clusters).all (fun c => c.ready) = true ∧
    bC5sat.waiting_for_read.waiting_for_slot = none ∧
    (Dict.values bC5sat.ipc.servers).find?
      (fun s => s.cluster_uids.length < bC5sat.cluster_per_server)
      = some ⟨10, [20]⟩ ∧
    (bC5sat.main_loop_tick).2 = none := by
  exact ⟨by decide, rfl, rfl, rfl, rfl⟩

/-- C5 (amended): on a tick where a server is present, every cached
cluster is ready, the (invalidated) `waiting_for` slot is empty, some
server is below `clusters_per_server`, **and the needed-shard set
`{0..total_shards-1} \ all_shards()` is nonempty**, the brain sends
`launch_cluster` carrying the first `shards_per_cluster` needed shards
in ascending order to the first below-cap server and sets
`waiting_for = (that server's uid, min of the chosen shards)`, which is
also the minimum of the whole needed set; if any of these conditions —
including the nonemptiness — fails, nothing is launched that tick. -/
theorem brain_tick_spec (b : BrainState) :
    (∀ srv : ServerInfo,
      b.ipc.server_uids.length ≠ 0 →
      (Dict.values b.ipc.clusters).all (fun c => c.ready) = true →
      b.waiting_for_read.waiting_for_slot = none →
      (Dict.values b.ipc.servers).find?
        (fun s => s.cluster_uids.length < b.cluster_per_server)
        = some srv →
      Finset.range b.total_shards \ b.ipc.all_shards ≠ ∅ →
      (b.main_loop_tick).2 = some ⟨[srv.uid], "launch_cluster",
          ((Finset.range b.total_shards \ b.ipc.all_shards).sort
            (· ≤ ·)).take b.shards_per_cluster, b.total_shards⟩ ∧
      (b.main_loop_tick).1.waiting_for_slot = some (srv.uid,
        listMinNat (((Finset.range b.total_shards \ b.ipc.all_shards).sort
          (· ≤ ·)).take b.shards_per_cluster)) ∧
      List.Sorted (· ≤ ·)
        (((Finset.range b.total_shards \ b.ipc.all_shards).sort
          (· ≤ ·)).take b.shards_per_cluster) ∧
      (∀ y ∈ ((Finset.range b.total_shards \ b.ipc.all_shards).sort
          (· ≤ ·)).take b.shards_per_cluster,
        y ∈ Finset.range b.total_shards \ b.ipc.all_shards) ∧
      (b.shards_per_cluster ≠ 0 →
        ∀ y ∈ Finset.range b.total_shards \ b.ipc.all_shards,
          listMinNat
            (((Finset.range b.total_shards \ b.ipc.all_shards).sort
              (· ≤ ·)).take b.shards_per_cluster) ≤ y)) ∧
    ((b.ipc.server_uids.length = 0 ∨
      (Dict.values b.ipc.clusters).all (fun c => c.ready) = false ∨
      b.waiting_for_read.waiting_for_slot ≠ none ∨
      (Dict.values b.ipc.servers).find?
        (fun s => s.cluster_uids.length < b.cluster_per_server) = none ∨
      Finset.range b.total_shards \ b.ipc.all_shards = ∅) →
      (b.main_loop_tick).2 = none) := by
  constructor
  · intro srv h1 h2 h3 h4 h5
    have hg : b.get_next_cluster_to_launch
        = (b.waiting_for_read, some (srv.uid,
            ((Finset.range b.total_shards \ b.ipc.all_shards).sort
              (· ≤ ·)).take b.shards_per_cluster)) := by
      unfold BrainState.get_next_cluster_to_launch
      rw [if_neg h1]
      rw [if_neg (show ¬((!((Dict.values b.ipc.clusters).all
          (fun c => c.ready))) = true) by simp [h2])]
      rw [if_neg (show ¬(b.waiting_for_read.waiting_for_slot ≠ none) by
        simp [h3])]
      rw [h4]
      show (if Finset.range b.total_shards \ b.ipc.all_shards = ∅ then
            (b.waiting_for_read, none)
          else (b.waiting_for_read, some (srv.uid,
            ((Finset.range b.total_shards \ b.ipc.all_shards).sort
              (· ≤ ·)).take b.shards_per_cluster)))
        = (b.waiting_for_read, some (srv.uid,
            ((Finset.range b.total_shards \ b.ipc.all_shards).sort
              (· ≤ ·)).take b.shards_per_cluster))
      rw [if_neg h5]
    have ht : b.main_loop_tick
        = ({ b.waiting_for_read with waiting_for_slot := some (srv.uid,
              listMinNat
                (((Finset.range b.total_shards \ b.ipc.all_shards).sort
                  (· ≤ ·)).take b.shards_per_cluster)) },
           some ⟨[srv.uid], "launch_cluster",
             ((Finset.range b.total_shards \ b.ipc.all_shards).sort
               (· ≤ ·)).take b.shards_per_cluster,
             b.waiting_for_read.total_shards⟩) := by
      unfold BrainState.main_loop_tick
      rw [hg]
    refine ⟨?_, ?_, ?_, ?_, ?_⟩
    · rw [ht]
      simp [waiting_for_read_total]
    · rw [ht]
    · exact List.Pairwise.sublist (List.take_sublist _ _)
        (Finset.sort_sorted (· ≤ ·) _)
    · intro y hy
      have hmem : y ∈ (Finset.range b.total_shards \
          b.ipc.all_shards).sort (· ≤ ·) :=
        List.Sublist.mem hy (List.take_sublist _ _)
      exact (Finset.mem_sort (· ≤ ·)).mp hmem
    · intro hk y hy
      cases hsort : (Finset.range b.total_shards \
          b.ipc.all_shards).sort (· ≤ ·) with
      | nil =>
          have hzs : y ∈ (Finset.range b.total_shards \
              b.ipc.all_shards).sort (· ≤ ·) :=
            (Finset.mem_sort (· ≤ ·)).mpr hy
          rw [hsort] at hzs
          cases hzs
      | cons h₀ tl =>
          cases hk' : b.shards_per_cluster with
          | zero => exact absurd hk' hk
          | succ k =>
              have hmin : listMinNat (h₀ :: tl.take k) ≤ h₀ :=
                foldl_min_le (tl.take k) h₀
              have hsorted := Finset.sort_sorted (· ≤ ·)
                (Finset.range b.total_shards \ b.ipc.all_shards)
              rw [hsort] at hsorted
              have hy' : y ∈ h₀ :: tl := by
                rw [← hsort]
                exact (Finset.mem_sort (· ≤ ·)).mpr hy
              have h₀y : h₀ ≤ y := by
                rcases List.mem_cons.mp hy' with hyy | hyy
                · exact Nat.le_of_eq hyy.symm
                · exact (List.sorted_cons.mp hsorted).1 y hyy
              exact Nat.le_trans hmin h₀y
  · intro hdisj
    have key : (b.get_next_cluster_to_launch).2 = none := by
      unfold BrainState.get_next_cluster_to_launch
      by_cases hl : b.ipc.server_uids.length = 0
      · rw [if_pos hl]
      · rw [if_neg hl]
        by_cases hall :
            (Dict.values b.ipc.clusters).all (fun c => c.ready) = true
        · rw [if_neg (show ¬((!((Dict.values b.ipc.clusters).all
              (fun c => c.ready))) = true) by simp [hall])]
          by_cases hw : b.waiting_for_read.waiting_for_slot = none
          · rw [if_neg (by simp [hw])]
            rcases hdisj with h | h | h | h | h
            · exact absurd h hl
            · rw [hall] at h; cases h
            · exact absurd hw h
            · rw [h]
            · cases hf : (Dict.values b.ipc.servers).find?
                  (fun s => s.cluster_uids.length < b.cluster_per_server)
                with
              | none => rfl
              | some s =>
                  show ((if Finset.range b.total_shards \
                        b.ipc.all_shards = ∅ then
                      (b.waiting_for_read, none)
                    else (b.waiting_for_read, some (s.uid,
                      ((Finset.range b.total_shards \
                        b.ipc.all_shards).sort (· ≤ ·)).take
                          b.shards_per_cluster))) :
                    BrainState × Option (Int × List Nat)).2 = none
                  rw [if_pos h]
          · rw [if_pos (by simpa using hw)]
        · have hfalse :
              (Dict.values b.ipc.clusters).all (fun c => c.ready)
                = false := by
            simpa using hall
          rw [if_pos (by simp [hfalse])]
    unfold BrainState.main_loop_tick
    cases hge : b.get_next_cluster_to_launch with
    | mk b1 o =>
        rw [hge] at key
        have ho : o = none := key
        subst ho
        rfl

theorem brain_tick_spec_witness :
    (bC5launch.main_loop_tick).2 = some ⟨[(10 : Int)], "launch_cluster",
        ((Finset.range bC5launch.total_shards \
          bC5launch.ipc.all_shards).sort (· ≤ ·)).take
            bC5launch.shards_per_cluster,
        bC5launch.total_shards⟩ :=
  ((brain_tick_spec bC5launch).1 ⟨10, []⟩ (by decide) rfl rfl rfl
    (by decide)).1

/-- C8: for every payload whose stored opcode agrees with its data
variant's class opcode (all five variants), deserializing the
serialized dictionary returns the original payload. -/
theorem payload_roundtrip (p : Payload) (h : p.opcode = p.data.opcodeOf) :
    deserialize_payload p.serialize = some p := by
  obtain ⟨op, au, recs, d⟩ := p
  simp only [PayloadData.opcodeOf] at h
  subst h
  cases d <;>
    simp [Payload.serialize, PayloadData.serializeData, deserialize_payload,
      J.lookup, List.lookup, decodePayloadData, J.asInt, J.asStr,
      asIntList_map_int, PayloadData.opcodeOf]

theorem payload_roundtrip_witness :
    deserialize_payload
        (Payload.serialize ⟨0, 7, [2, 3], .command "ping" 1 .null⟩)
      = some ⟨0, 7, [2, 3], .command "ping" 1 .null⟩ :=
  payload_roundtrip ⟨0, 7, [2, 3], .command "ping" 1 .null⟩ rfl

/-- C9, counterexample: the hub server's `_serve` loop decodes each
frame inside the loop without catching decode errors; an
unknown-opcode frame (opcode 9) raises out of the loop, the `finally`
removes the sender from the registry, and the following well-formed
frame addressed to the online client 2 is never forwarded — the hub
does not keep the connection open and forwarding. -/
theorem server_unknown_opcode_counterexample :
    serve_recv 1 [(1, ()), (2, ())]
        [J.obj [("opcode", .int 9), ("author", .int 1),
                ("recipients", .arr [.int 2]), ("data", .obj [])],
         Payload.serialize ⟨1, 1, [2], .event "ping" .null⟩]
      = ([], [(2, ())]) ∧
    (deserialize_payload
        (Payload.serialize ⟨1, 1, [2], .event "ping" .null⟩)).isSome
      = true ∧
    (dispatch [(1, ()), (2, ())] [2]
        (Payload.serialize ⟨1, 1, [2], .event "ping" .null⟩)).length
      = 1 := by
  exact ⟨rfl, rfl, rfl⟩

/-- C9 (amended): an unknown-opcode message is dropped cleanly only on
the hub *client*: the decode failure aborts the freshly spawned
handling task, the state is untouched, and the receive loop continues
with the remaining frames.  On the hub *server*, the decode failure
raises out of the serve loop: the sender is removed from the registry
and none of its subsequent frames is forwarded. -/
theorem unknown_opcode_handling (st : ClientState) (cmds : CommandTable)
    (bad : J) (rest : List Frame) (uid : Int) (clients : Dict Int Unit)
    (msgs : List J) (hbad : deserialize_payload bad = none) :
    ClientState.recv_loop cmds st (.message bad :: rest)
      = ClientState.recv_loop cmds st rest ∧
    serve_recv uid clients (bad :: msgs)
      = ([], clients.eraseKey uid) := by
  constructor
  · simp [ClientState.recv_loop, ClientState.handle_message, hbad]
  · simp [serve_recv, hbad]

theorem unknown_opcode_handling_witness :
    ClientState.recv_loop [] ⟨∅, none, [], [], [], ⟨[], 0⟩⟩
        [.message (J.obj [("opcode", .int 9)])]
      = ClientState.recv_loop [] ⟨∅, none, [], [], [], ⟨[], 0⟩⟩ [] ∧
    serve_recv 1 [(1, ())] [J.obj [("opcode", .int 9)]]
      = ([], Dict.eraseKey [(1, ())] 1) :=
  unknown_opcode_handling ⟨∅, none, [], [], [], ⟨[], 0⟩⟩ []
    (J.obj [("opcode", .int 9)]) [] 1 [(1, ())] [] rfl

end HC
